import Mathlib

/-!
# rays-cpp: the geometry core of `src/main.cpp`

A shallow embedding of the segment geometry, the ray caster and the
collision-aware mover of `src/main.cpp`, followed by the properties the
specification states about them.

Conventions of the embedding.

* `float` coordinates are read as elements of a linearly ordered field `K`
  (exact arithmetic): the definitions run over `ℚ` and the theorems hold over
  `ℝ` as well.
* The functions of `<cmath>` the program calls (`cos`, `sin`, `atan2`, `hypot`)
  and the constant `M_PI` are collected in a record `CMath K` that every
  definition using them receives; `CMath.Lawful` states the textbook laws of
  these functions that the proofs rely on, and `realMath` is the instance over
  `ℝ`.
* The global vector `WALLS` is passed explicitly as a list, in insertion order.
* Rendering (colours, windows, vertices) is left out.
-/

namespace Rays

/-! ## Data model -/

/-- The `<cmath>` functions and the constant `M_PI` used by `main.cpp`. -/
structure CMath (K : Type) where
  /-- The function `std::cos`. -/
  cos : K → K
  /-- The function `std::sin`. -/
  sin : K → K
  /-- The function `std::atan2`, first argument `y`, second argument `x`. -/
  atan2 : K → K → K
  /-- The function `std::hypot`. -/
  hypot : K → K → K
  /-- The constant `M_PI`. -/
  M_PI : K

/-- The laws of `cos`, `sin` and `hypot` over exact arithmetic. -/
structure CMath.Lawful {K : Type} [LinearOrderedField K] (m : CMath K) : Prop where
  cos_sq_add_sin_sq : ∀ t, m.cos t ^ 2 + m.sin t ^ 2 = 1
  cos_neg : ∀ t, m.cos (-t) = m.cos t
  sin_neg : ∀ t, m.sin (-t) = -m.sin t
  hypot_nonneg : ∀ x y, 0 ≤ m.hypot x y
  hypot_sq : ∀ x y, m.hypot x y ^ 2 = x ^ 2 + y ^ 2

/-- The `<cmath>` functions over the real numbers. -/
noncomputable def realMath : CMath ℝ where
  cos := Real.cos
  sin := Real.sin
  atan2 := fun y x => Complex.arg ⟨x, y⟩
  hypot := fun x y => Real.sqrt (x ^ 2 + y ^ 2)
  M_PI := Real.pi

/-- `const float PI = static_cast<float>(M_PI);` -/
def PI {K : Type} (m : CMath K) : K := m.M_PI

/-- `const float HALF_PI = PI / 2.0f;` -/
def HALF_PI {K : Type} [LinearOrderedField K] (m : CMath K) : K := PI m / 2

/-- `enum class Directions`. -/
inductive Directions where
  | UP
  | DOWN
  | LEFT
  | RIGHT
deriving DecidableEq, Repr

/-- `class Point`: a pair of coordinates. -/
structure Point (K : Type) where
  x : K
  y : K
deriving DecidableEq, Repr

/-- `sf::Vector2f`: a pair of components. -/
structure Vector2f (K : Type) where
  x : K
  y : K
deriving DecidableEq, Repr

/-- `class BoundaryWall`: a segment given by its two end points
(`end` is written `end_`). -/
structure BoundaryWall (K : Type) where
  start : Point K
  end_ : Point K
deriving DecidableEq, Repr

/-- `class Wall : public BoundaryWall`, with the inherited constructor. -/
structure Wall (K : Type) extends BoundaryWall K
deriving DecidableEq, Repr

/-- `class Ray`, without its colour. -/
structure Ray (K : Type) where
  source : Point K
  length : K
  end_point : Point K
  direction : Vector2f K
deriving DecidableEq, Repr

/-- `class LightSource`, without its colour. -/
structure LightSource (K : Type) where
  ray_density : Int
  pos : Point K
  radius : K
  mouse_x_old : K
  mouse_y_old : K

section Geometry

variable {K : Type} [LinearOrderedField K]

/-! ## Segments -/

/-- The constructor `BoundaryWall::BoundaryWall` (named `new`, as for `Ray`): it
stores the two points and has no other statement. -/
def BoundaryWall.new (start_point end_point : Point K) : BoundaryWall K :=
  { start := start_point, end_ := end_point }

/-- The constructor of `Wall`, inherited by `using BoundaryWall::BoundaryWall`. -/
def Wall.new (start_point end_point : Point K) : Wall K :=
  { toBoundaryWall := BoundaryWall.new start_point end_point }

/-- `BoundaryWall::get_angle`; the `throw` is the `error` outcome. -/
def BoundaryWall.get_angle (m : CMath K) (w : BoundaryWall K) (direction : Directions) :
    Except String K :=
  if direction = Directions.LEFT then
    let dx_line := w.start.x - w.end_.x
    let dy_line := w.start.y - w.end_.y
    .ok (m.atan2 dy_line dx_line)
  else if direction = Directions.RIGHT then
    let dx_line := w.end_.x - w.start.x
    let dy_line := w.end_.y - w.start.y
    .ok (m.atan2 dy_line dx_line)
  else
    .error "Direction not implemented"

/-- The lambda `ccw` of `Wall::intersects_line`. -/
def Wall.ccw (A B C : Point K) : Bool :=
  decide ((C.y - A.y) * (B.x - A.x) > (B.y - A.y) * (C.x - A.x))

/-- `Wall::intersects_line`. -/
def Wall.intersects_line (w : Wall K) (line : BoundaryWall K) : Bool :=
  let A := w.start
  let B := w.end_
  let C := line.start
  let D := line.end_
  (Wall.ccw A C D != Wall.ccw B C D) && (Wall.ccw A B C != Wall.ccw A B D)

/-- `Point::intersects_line`. -/
def Point.intersects_line (m : CMath K) (p : Point K) (line : Wall K) : Bool :=
  let dist_from_end := m.hypot (p.x - line.end_.x) (p.y - line.end_.y)
  let dist_from_start := m.hypot (p.x - line.start.x) (p.y - line.start.y)
  let line_length := m.hypot (line.start.x - line.end_.x) (line.start.y - line.end_.y)
  decide (|dist_from_end + dist_from_start - line_length| < 1 / 100)

/-- The constructor `Ray::Ray` (named `new`: inside the namespace `Ray` the name
`Ray` is the type); `end_point` starts as the default `Point()`. -/
def Ray.new (m : CMath K) (source_point : Point K) (angle length_value : K) : Ray K :=
  { source := source_point,
    length := length_value,
    end_point := ⟨0, 0⟩,
    direction := ⟨m.cos angle * length_value, m.sin angle * length_value⟩ }

/-- The `denominator` of `Ray::intersects_line`. -/
def Ray.denominator (r : Ray K) (line : BoundaryWall K) : K :=
  let x1 := r.source.x
  let y1 := r.source.y
  let x2 := r.source.x + r.direction.x
  let y2 := r.source.y + r.direction.y
  let x3 := line.start.x
  let y3 := line.start.y
  let x4 := line.end_.x
  let y4 := line.end_.y
  (y4 - y3) * (x2 - x1) - (x4 - x3) * (y2 - y1)

/-- The parameter `ua` of `Ray::intersects_line` (position along the ray). -/
def Ray.ua (r : Ray K) (line : BoundaryWall K) : K :=
  let x1 := r.source.x
  let y1 := r.source.y
  let x3 := line.start.x
  let y3 := line.start.y
  let x4 := line.end_.x
  let y4 := line.end_.y
  ((x4 - x3) * (y1 - y3) - (y4 - y3) * (x1 - x3)) / r.denominator line

/-- The parameter `ub` of `Ray::intersects_line` (position along the wall). -/
def Ray.ub (r : Ray K) (line : BoundaryWall K) : K :=
  let x1 := r.source.x
  let y1 := r.source.y
  let x2 := r.source.x + r.direction.x
  let y2 := r.source.y + r.direction.y
  let x3 := line.start.x
  let y3 := line.start.y
  ((x2 - x1) * (y1 - y3) - (y2 - y1) * (x1 - x3)) / r.denominator line

/-- `Ray::intersects_line`; `Point(-1, -1)` is the "no intersection" result. -/
def Ray.intersects_line (r : Ray K) (line : BoundaryWall K) : Point K :=
  let x1 := r.source.x
  let y1 := r.source.y
  let x2 := r.source.x + r.direction.x
  let y2 := r.source.y + r.direction.y
  let denominator := r.denominator line
  if denominator = 0 then
    ⟨-1, -1⟩
  else
    let ua := r.ua line
    let ub := r.ub line
    if ua < 0 ∨ ua > 1 ∨ ub < 0 ∨ ub > 1 then
      ⟨-1, -1⟩
    else
      let x := x1 + ua * (x2 - x1)
      let y := y1 + ua * (y2 - y1)
      ⟨x, y⟩

/-- The local variables of the loop of `Ray::set_end_point`. -/
structure ScanState (K : Type) where
  nearest_wall_distance : K
  end_point : Point K
  found_intersection : Bool

/-- One iteration of the loop of `Ray::set_end_point`. -/
def Ray.scan_wall (m : CMath K) (r : Ray K) (st : ScanState K) (line : BoundaryWall K) :
    ScanState K :=
  let intersects_at := r.intersects_line line
  if intersects_at.x ≠ -1 then
    let distance_to_wall :=
      m.hypot (r.source.x - intersects_at.x) (r.source.y - intersects_at.y)
    if distance_to_wall < st.nearest_wall_distance then
      { nearest_wall_distance := distance_to_wall,
        end_point := intersects_at,
        found_intersection := true }
    else st
  else st

/-- The loop of `Ray::set_end_point` over `WALLS`, from its initial state. -/
def Ray.scan_walls (m : CMath K) (WALLS : List (BoundaryWall K)) (r : Ray K) : ScanState K :=
  WALLS.foldl (r.scan_wall m)
    { nearest_wall_distance := r.length, end_point := r.end_point, found_intersection := false }

/-- `Ray::set_end_point`. -/
def Ray.set_end_point (m : CMath K) (WALLS : List (BoundaryWall K)) (r : Ray K) : Ray K :=
  let st := r.scan_walls m WALLS
  if !st.found_intersection then
    { r with end_point := ⟨r.source.x + r.direction.x, r.source.y + r.direction.y⟩ }
  else
    { r with end_point := st.end_point }

/-! ## Light source -/

/-- The loop of `LightSource::intersects_any_line` from wall `i` on. -/
def LightSource.scan_lines (m : CMath K) (pos new_pos : Point K) (direction : Directions) :
    List (BoundaryWall K) → Except String (Point K)
  | [] => .ok new_pos
  | line :: rest =>
    let temp_line : Wall K := { start := pos, end_ := new_pos }
    if temp_line.intersects_line line then
      match line.get_angle m direction with
      | .error e => .error e
      | .ok wall_angle =>
        if wall_angle = PI m ∨ wall_angle = -PI m ∨ wall_angle = HALF_PI m / 2
            ∨ wall_angle = -HALF_PI m / 2 then
          .ok pos
        else
          let move_length := m.hypot (new_pos.x - pos.x) (new_pos.y - pos.y)
          let direction_vector : Vector2f K :=
            ⟨m.cos wall_angle * move_length, m.sin wall_angle * move_length⟩
          .ok ⟨pos.x + direction_vector.x, pos.y + direction_vector.y⟩
    else
      LightSource.scan_lines m pos new_pos direction rest

/-- `LightSource::intersects_any_line`. -/
def LightSource.intersects_any_line (m : CMath K) (WALLS : List (BoundaryWall K))
    (ls : LightSource K) (new_pos : Point K) (direction : Directions) :
    Except String (Point K) :=
  LightSource.scan_lines m ls.pos new_pos direction WALLS

/-! ## Notions of the specification -/

/-- The parametric test of `Ray::intersects_line` finds an intersection:
the denominator is not zero and `ua`, `ub` both lie in `[0, 1]`. -/
def Ray.hits (r : Ray K) (line : BoundaryWall K) : Prop :=
  r.denominator line ≠ 0 ∧ (0 ≤ r.ua line ∧ r.ua line ≤ 1) ∧ (0 ≤ r.ub line ∧ r.ub line ≤ 1)

instance (r : Ray K) (line : BoundaryWall K) : Decidable (r.hits line) := by
  unfold Ray.hits
  infer_instance

/-- The point at parameter `t` along the probe: `source + t * direction`. -/
def Ray.point_at (r : Ray K) (t : K) : Point K :=
  ⟨r.source.x + t * r.direction.x, r.source.y + t * r.direction.y⟩

/-- The point at parameter `t` along a segment: `start + t * (end - start)`. -/
def BoundaryWall.point_at (w : BoundaryWall K) (t : K) : Point K :=
  ⟨w.start.x + t * (w.end_.x - w.start.x), w.start.y + t * (w.end_.y - w.start.y)⟩

/-- Euclidean distance between two points, computed with `std::hypot`. -/
def dist (m : CMath K) (p q : Point K) : K :=
  m.hypot (p.x - q.x) (p.y - q.y)

/-- The specification's "keep the intersection with the smallest Euclidean
distance from the light position", for the ray `r` resolved against `WALLS`:
whenever some obstacle yields an intersection under the parametric test, the
resulting `end_point` is the intersection point of some obstacle and no
obstacle's intersection point is strictly closer to the source. -/
def keeps_nearest (m : CMath K) (WALLS : List (BoundaryWall K)) (r : Ray K) : Prop :=
  (∃ line ∈ WALLS, r.hits line) →
    (∃ line ∈ WALLS, r.hits line ∧
      (r.set_end_point m WALLS).end_point = r.intersects_line line) ∧
    ∀ line ∈ WALLS, r.hits line →
      ¬dist m r.source (r.intersects_line line)
        < dist m r.source (r.set_end_point m WALLS).end_point

/-- The invariant of the loop of `Ray::set_end_point` after the walls `seen`. -/
structure ScanInv (m : CMath K) (r : Ray K) (seen : List (BoundaryWall K))
    (st : ScanState K) : Prop where
  found : st.found_intersection = true → ∃ line ∈ seen, r.hits line ∧
    st.end_point = r.intersects_line line ∧
    st.nearest_wall_distance = dist m r.source st.end_point
  not_found : st.found_intersection = false → st.nearest_wall_distance = r.length
  le_length : st.nearest_wall_distance ≤ r.length
  nearest : ∀ line ∈ seen, (r.intersects_line line).x ≠ -1 →
    st.nearest_wall_distance ≤ dist m r.source (r.intersects_line line)

/-! ## Lemmas on the orientation test -/

theorem hypot_eq_of_sq {m : CMath K} (hm : m.Lawful) {x y c : K} (hc : 0 ≤ c)
    (h : c ^ 2 = x ^ 2 + y ^ 2) : m.hypot x y = c :=
  (sq_eq_sq₀ (hm.hypot_nonneg x y) hc).mp ((hm.hypot_sq x y).trans h.symm)

theorem intersects_line_of_hits (r : Ray K) (line : BoundaryWall K) (h : r.hits line) :
    r.intersects_line line = r.point_at (r.ua line) := by
  obtain ⟨hD, ⟨ha0, ha1⟩, ⟨hb0, hb1⟩⟩ := h
  unfold Ray.intersects_line Ray.point_at
  simp only [if_neg hD]
  rw [if_neg (by
    simp only [not_or, not_lt, gt_iff_lt]
    exact ⟨ha0, ha1, hb0, hb1⟩)]
  simp only [add_sub_cancel_left]

theorem intersects_line_of_not_hits (r : Ray K) (line : BoundaryWall K) (h : ¬r.hits line) :
    r.intersects_line line = ⟨-1, -1⟩ := by
  unfold Ray.intersects_line
  simp only
  by_cases hD : r.denominator line = 0
  · rw [if_pos hD]
  · rw [if_neg hD]
    by_cases hr : r.ua line < 0 ∨ r.ua line > 1 ∨ r.ub line < 0 ∨ r.ub line > 1
    · rw [if_pos hr]
    · exfalso
      simp only [not_or, not_lt, gt_iff_lt] at hr
      exact h ⟨hD, ⟨hr.1, hr.2.1⟩, ⟨hr.2.2.1, hr.2.2.2⟩⟩

theorem denominator_eq (r : Ray K) (line : BoundaryWall K) :
    r.denominator line = (line.end_.y - line.start.y) * r.direction.x
      - (line.end_.x - line.start.x) * r.direction.y := by
  unfold Ray.denominator
  ring

theorem ua_mul_denominator (r : Ray K) (line : BoundaryWall K) (hD : r.denominator line ≠ 0) :
    r.ua line * r.denominator line = (line.end_.x - line.start.x) * (r.source.y - line.start.y)
      - (line.end_.y - line.start.y) * (r.source.x - line.start.x) := by
  unfold Ray.ua
  exact div_mul_cancel₀ _ hD

theorem ub_mul_denominator (r : Ray K) (line : BoundaryWall K) (hD : r.denominator line ≠ 0) :
    r.ub line * r.denominator line = r.direction.x * (r.source.y - line.start.y)
      - r.direction.y * (r.source.x - line.start.x) := by
  unfold Ray.ub
  simp only [add_sub_cancel_left]
  exact div_mul_cancel₀ _ hD

theorem point_at_ua_eq_point_at_ub (r : Ray K) (line : BoundaryWall K)
    (hD : r.denominator line ≠ 0) : r.point_at (r.ua line) = line.point_at (r.ub line) := by
  have ha := ua_mul_denominator r line hD
  have hb := ub_mul_denominator r line hD
  have hd := denominator_eq r line
  unfold Ray.point_at BoundaryWall.point_at
  rw [Point.mk.injEq]
  constructor
  · apply mul_right_cancel₀ hD
    linear_combination r.direction.x * ha - (line.end_.x - line.start.x) * hb
      + (r.source.x - line.start.x) * hd
  · apply mul_right_cancel₀ hD
    linear_combination r.direction.y * ha - (line.end_.y - line.start.y) * hb
      + (r.source.y - line.start.y) * hd

end Geometry

/-! ## The real numbers as a model of `<cmath>` -/

theorem realMath_lawful : realMath.Lawful where
  cos_sq_add_sin_sq := Real.cos_sq_add_sin_sq
  cos_neg := Real.cos_neg
  sin_neg := Real.sin_neg
  hypot_nonneg := fun _ _ => Real.sqrt_nonneg _
  hypot_sq := fun x y => Real.sq_sqrt (add_nonneg (sq_nonneg x) (sq_nonneg y))

section Casting

variable {K : Type} [LinearOrderedField K]

/-! ## Casting against an empty registry -/

/-- C4: with an empty obstacle registry, the ray built by the constructor and
resolved by `Ray::set_end_point` ends exactly at
`source + L * (cos theta, sin theta)`. -/
theorem set_end_point_nil (m : CMath K) (source : Point K) (theta L : K) :
    ((Ray.new m source theta L).set_end_point m []).end_point
      = ⟨source.x + L * m.cos theta, source.y + L * m.sin theta⟩ := by
  simp [Ray.set_end_point, Ray.scan_walls, Ray.new, mul_comm]

/-! ## Rotation -/

end Casting

section Mover

variable {K : Type} [LinearOrderedField K]

/-! ## Collision-aware movement -/

theorem scan_lines_of_no_crossing (m : CMath K) (pos new_pos : Point K)
    (direction : Directions) (ws : List (BoundaryWall K))
    (h : ∀ line ∈ ws,
      ({ start := pos, end_ := new_pos } : Wall K).intersects_line line = false) :
    LightSource.scan_lines m pos new_pos direction ws = .ok new_pos := by
  induction ws with
  | nil => rfl
  | cons line rest ih =>
    have h1 := h line (List.mem_cons_self _ _)
    have h2 := ih fun v hv => h v (List.mem_cons_of_mem _ hv)
    simp only [LightSource.scan_lines, h1, h2, Bool.false_eq_true, if_false]

theorem scan_lines_append (m : CMath K) (pos new_pos : Point K) (direction : Directions)
    (pre rest : List (BoundaryWall K))
    (h : ∀ line ∈ pre,
      ({ start := pos, end_ := new_pos } : Wall K).intersects_line line = false) :
    LightSource.scan_lines m pos new_pos direction (pre ++ rest)
      = LightSource.scan_lines m pos new_pos direction rest := by
  induction pre with
  | nil => rfl
  | cons line pre ih =>
    have h1 := h line (List.mem_cons_self _ _)
    have h2 := ih fun v hv => h v (List.mem_cons_of_mem _ hv)
    rw [List.cons_append, LightSource.scan_lines]
    simp only [h1, Bool.false_eq_true, if_false]
    exact h2

/-- C5: if no registered obstacle crosses the probe segment from the current
position to the proposed one, `LightSource::intersects_any_line` returns the
proposed position unchanged, whatever the direction. -/
theorem intersects_any_line_of_no_crossing (m : CMath K) (WALLS : List (BoundaryWall K))
    (ls : LightSource K) (new_pos : Point K) (direction : Directions)
    (h : ∀ line ∈ WALLS,
      ({ start := ls.pos, end_ := new_pos } : Wall K).intersects_line line = false) :
    ls.intersects_any_line m WALLS new_pos direction = .ok new_pos :=
  scan_lines_of_no_crossing m ls.pos new_pos direction WALLS h

/-- C6: if the first obstacle crossing the probe has `get_angle(direction)` equal
to one of `pi`, `-pi`, `pi/4`, `-pi/4` (which requires the direction to be
`LEFT` or `RIGHT`, the only ones for which `get_angle` returns a value),
`LightSource::intersects_any_line` returns the current position unchanged. -/
theorem intersects_any_line_full_stop (m : CMath K) (pre post : List (BoundaryWall K))
    (line : BoundaryWall K) (ls : LightSource K) (new_pos : Point K) (direction : Directions)
    (hpre : ∀ v ∈ pre,
      ({ start := ls.pos, end_ := new_pos } : Wall K).intersects_line v = false)
    (hline : ({ start := ls.pos, end_ := new_pos } : Wall K).intersects_line line = true)
    (ha : line.get_angle m direction = .ok (PI m) ∨ line.get_angle m direction = .ok (-PI m)
      ∨ line.get_angle m direction = .ok (PI m / 4)
      ∨ line.get_angle m direction = .ok (-PI m / 4)) :
    ls.intersects_any_line m (pre ++ line :: post) new_pos direction = .ok ls.pos := by
  unfold LightSource.intersects_any_line
  rw [scan_lines_append m ls.pos new_pos direction pre (line :: post) hpre]
  have e1 : HALF_PI m / 2 = PI m / 4 := by
    unfold HALF_PI
    ring
  have e2 : -HALF_PI m / 2 = -PI m / 4 := by
    unfold HALF_PI
    ring
  rcases ha with ha | ha | ha | ha <;>
    simp only [LightSource.scan_lines, hline, ha, e1, e2, if_true, true_or, or_true]

end Mover

/-- C5 at a concrete input: the light at `(250,150)` moving to `(251,150)`
with the five interior walls of `main` registered. -/
theorem intersects_any_line_of_no_crossing_witness :
    (⟨4, ⟨250, 150⟩, 5, 0, 0⟩ : LightSource ℝ).intersects_any_line realMath
        [⟨⟨300, 100⟩, ⟨500, 300⟩⟩, ⟨⟨200, 600⟩, ⟨500, 800⟩⟩, ⟨⟨600, 300⟩, ⟨600, 500⟩⟩,
          ⟨⟨800, 600⟩, ⟨1000, 600⟩⟩, ⟨⟨1200, 100⟩, ⟨1200, 700⟩⟩]
        ⟨251, 150⟩ Directions.RIGHT = .ok ⟨251, 150⟩ :=
  intersects_any_line_of_no_crossing realMath _ _ _ _ (by
    intro line hline
    simp only [List.mem_cons, List.mem_singleton, List.not_mem_nil, or_false] at hline
    rcases hline with rfl | rfl | rfl | rfl | rfl <;>
      norm_num [Wall.intersects_line, Wall.ccw])

theorem get_angle_right_leftward :
    (⟨⟨1, 1⟩, ⟨-1, 1⟩⟩ : BoundaryWall ℝ).get_angle realMath Directions.RIGHT
      = .ok (PI realMath) := by
  have e : (⟨(-1 : ℝ) - 1, 1 - 1⟩ : ℂ) = ((-2 : ℝ) : ℂ) := by
    apply Complex.ext <;> norm_num
  simp only [BoundaryWall.get_angle, realMath, PI, e, reduceCtorEq, if_false, if_true]
  rw [Complex.arg_ofReal_of_neg (by norm_num)]

/-- C6 at a concrete input: the light at `(0,0)` moving to `(0,2)`, direction
`RIGHT`; the wall from `(5,5)` to `(6,6)` does not cross the probe, the wall
from `(1,1)` to `(-1,1)` does and its angle is `pi`. -/
theorem intersects_any_line_full_stop_witness :
    (⟨4, ⟨0, 0⟩, 5, 0, 0⟩ : LightSource ℝ).intersects_any_line realMath
        ([⟨⟨5, 5⟩, ⟨6, 6⟩⟩] ++ ⟨⟨1, 1⟩, ⟨-1, 1⟩⟩ :: []) ⟨0, 2⟩ Directions.RIGHT
      = .ok ⟨0, 0⟩ :=
  intersects_any_line_full_stop realMath [⟨⟨5, 5⟩, ⟨6, 6⟩⟩] [] ⟨⟨1, 1⟩, ⟨-1, 1⟩⟩
    ⟨4, ⟨0, 0⟩, 5, 0, 0⟩ ⟨0, 2⟩ Directions.RIGHT
    (by
      intro v hv
      rw [List.mem_singleton] at hv
      subst hv
      norm_num [Wall.intersects_line, Wall.ccw])
    (by norm_num [Wall.intersects_line, Wall.ccw])
    (Or.inl get_angle_right_leftward)

section Sentinel

variable {K : Type} [LinearOrderedField K]

/-! ## The "no intersection" result -/

theorem not_hits_iff (r : Ray K) (line : BoundaryWall K) :
    ¬r.hits line ↔ (r.denominator line = 0 ∨ r.ua line < 0 ∨ 1 < r.ua line
      ∨ r.ub line < 0 ∨ 1 < r.ub line) := by
  unfold Ray.hits
  simp only [not_and_or, not_le, ne_eq, not_not, or_assoc]

/-- C10, counterexample: the probe from `(-2,-1)` with direction `(2,0)` meets
the wall from `(-1,-2)` to `(-1,0)` at `ua = ub = 1/2`, in the point `(-1,-1)`:
the result of `Ray::intersects_line` is the "no intersection" value although
the denominator is not zero and both parameters lie in `[0,1]`. -/
theorem intersects_line_sentinel_clash :
    (⟨⟨-2, -1⟩, 2, ⟨0, 0⟩, ⟨2, 0⟩⟩ : Ray ℚ).intersects_line ⟨⟨-1, -2⟩, ⟨-1, 0⟩⟩ = ⟨-1, -1⟩ ∧
      ¬((⟨⟨-2, -1⟩, 2, ⟨0, 0⟩, ⟨2, 0⟩⟩ : Ray ℚ).denominator ⟨⟨-1, -2⟩, ⟨-1, 0⟩⟩ = 0
        ∨ (⟨⟨-2, -1⟩, 2, ⟨0, 0⟩, ⟨2, 0⟩⟩ : Ray ℚ).ua ⟨⟨-1, -2⟩, ⟨-1, 0⟩⟩ < 0
        ∨ 1 < (⟨⟨-2, -1⟩, 2, ⟨0, 0⟩, ⟨2, 0⟩⟩ : Ray ℚ).ua ⟨⟨-1, -2⟩, ⟨-1, 0⟩⟩
        ∨ (⟨⟨-2, -1⟩, 2, ⟨0, 0⟩, ⟨2, 0⟩⟩ : Ray ℚ).ub ⟨⟨-1, -2⟩, ⟨-1, 0⟩⟩ < 0
        ∨ 1 < (⟨⟨-2, -1⟩, 2, ⟨0, 0⟩, ⟨2, 0⟩⟩ : Ray ℚ).ub ⟨⟨-1, -2⟩, ⟨-1, 0⟩⟩) := by
  norm_num [Ray.intersects_line, Ray.denominator, Ray.ua, Ray.ub]

/-- C10, as amended: `Ray::intersects_line` returns `(-1,-1)` if and only if the
denominator is zero, or `ua` or `ub` lies outside `[0,1]`, or the crossing point
`source + ua * direction` is itself `(-1,-1)`; and whenever the denominator is
not zero and `ua`, `ub` lie in `[0,1]`, the result is `source + ua * direction`. -/
theorem intersects_line_no_intersection_iff (r : Ray K) (line : BoundaryWall K) :
    (r.intersects_line line = ⟨-1, -1⟩ ↔
      ((r.denominator line = 0 ∨ r.ua line < 0 ∨ 1 < r.ua line
          ∨ r.ub line < 0 ∨ 1 < r.ub line)
        ∨ r.point_at (r.ua line) = ⟨-1, -1⟩)) ∧
    (¬(r.denominator line = 0 ∨ r.ua line < 0 ∨ 1 < r.ua line
          ∨ r.ub line < 0 ∨ 1 < r.ub line) →
      r.intersects_line line = r.point_at (r.ua line)) := by
  rw [← not_hits_iff, not_not]
  refine ⟨?_, intersects_line_of_hits r line⟩
  by_cases h : r.hits line
  · rw [intersects_line_of_hits r line h]
    exact ⟨fun e => Or.inr e, fun e => e.resolve_left (not_not.mpr h)⟩
  · exact ⟨fun _ => Or.inl h, fun _ => intersects_line_of_not_hits r line h⟩

end Sentinel

section Nearest

variable {K : Type} [LinearOrderedField K]

/-! ## The nearest intersection -/

theorem hits_of_x_ne (r : Ray K) (line : BoundaryWall K)
    (h : (r.intersects_line line).x ≠ -1) : r.hits line := by
  by_contra hn
  rw [intersects_line_of_not_hits r line hn] at h
  exact h rfl

theorem scan_wall_inv (m : CMath K) (r : Ray K) (seen : List (BoundaryWall K))
    (st : ScanState K) (line : BoundaryWall K) (h : ScanInv m r seen st) :
    ScanInv m r (seen ++ [line]) (r.scan_wall m st line) := by
  unfold Ray.scan_wall
  simp only
  by_cases hx : (r.intersects_line line).x ≠ -1
  · rw [if_pos hx]
    by_cases hd : m.hypot (r.source.x - (r.intersects_line line).x)
        (r.source.y - (r.intersects_line line).y) < st.nearest_wall_distance
    · rw [if_pos hd]
      refine ⟨fun _ => ⟨line, by simp, hits_of_x_ne r line hx, rfl, rfl⟩,
        fun hf => by simp at hf, (le_of_lt hd).trans h.le_length, ?_⟩
      intro v hv hvx
      rcases List.mem_append.mp hv with hv | hv
      · exact (le_of_lt hd).trans (h.nearest v hv hvx)
      · rw [List.mem_singleton.mp hv]
        exact le_refl _
    · rw [if_neg hd]
      refine ⟨fun hf => ?_, h.not_found, h.le_length, ?_⟩
      · obtain ⟨v, hv, hh⟩ := h.found hf
        exact ⟨v, List.mem_append_left _ hv, hh⟩
      · intro v hv hvx
        rcases List.mem_append.mp hv with hv | hv
        · exact h.nearest v hv hvx
        · rw [List.mem_singleton.mp hv]
          exact not_lt.mp hd
  · rw [if_neg hx]
    refine ⟨fun hf => ?_, h.not_found, h.le_length, ?_⟩
    · obtain ⟨v, hv, hh⟩ := h.found hf
      exact ⟨v, List.mem_append_left _ hv, hh⟩
    · intro v hv hvx
      rcases List.mem_append.mp hv with hv | hv
      · exact h.nearest v hv hvx
      · rw [List.mem_singleton.mp hv] at hvx
        exact absurd hvx hx

theorem scan_walls_inv (m : CMath K) (r : Ray K) (WALLS : List (BoundaryWall K)) :
    ScanInv m r WALLS (r.scan_walls m WALLS) := by
  induction WALLS using List.reverseRecOn with
  | nil =>
    exact ⟨fun hf => by simp [Ray.scan_walls] at hf, fun _ => rfl, le_refl _,
      fun v hv => absurd hv (List.not_mem_nil v)⟩
  | append_singleton seen line ih =>
    have e : r.scan_walls m (seen ++ [line]) = r.scan_wall m (r.scan_walls m seen) line := by
      unfold Ray.scan_walls
      rw [List.foldl_append]
      rfl
    rw [e]
    exact scan_wall_inv m r seen _ line ih

theorem dist_point_at {m : CMath K} (hm : m.Lawful) (source : Point K) (theta L t : K)
    (hL : 0 ≤ L) (ht : 0 ≤ t) :
    dist m source ((Ray.new m source theta L).point_at t) = t * L := by
  unfold dist
  apply hypot_eq_of_sq hm (mul_nonneg ht hL)
  unfold Ray.point_at Ray.new
  simp only
  linear_combination (t ^ 2 * L ^ 2) * (hm.cos_sq_add_sin_sq theta).symm

theorem denominator_of_zero_length (m : CMath K) (source : Point K) (theta : K)
    (line : BoundaryWall K) : (Ray.new m source theta 0).denominator line = 0 := by
  rw [denominator_eq]
  simp [Ray.new]

theorem set_end_point_of_found (m : CMath K) (r : Ray K) (WALLS : List (BoundaryWall K))
    (h : (r.scan_walls m WALLS).found_intersection = true) :
    (r.set_end_point m WALLS).end_point = (r.scan_walls m WALLS).end_point := by
  unfold Ray.set_end_point
  simp [h]

theorem set_end_point_of_not_found (m : CMath K) (r : Ray K) (WALLS : List (BoundaryWall K))
    (h : (r.scan_walls m WALLS).found_intersection = false) :
    (r.set_end_point m WALLS).end_point = r.point_at 1 := by
  unfold Ray.set_end_point Ray.point_at
  simp [h]

theorem set_end_point_of_neg_length {m : CMath K} (hm : m.Lawful) (r : Ray K)
    (WALLS : List (BoundaryWall K)) (h : r.length < 0) :
    (r.set_end_point m WALLS).end_point = r.point_at 1 := by
  apply set_end_point_of_not_found
  by_contra hf
  rw [Bool.not_eq_false] at hf
  have inv := scan_walls_inv m r WALLS
  obtain ⟨_, _, _, _, hn⟩ := inv.found hf
  have h0 : 0 ≤ (r.scan_walls m WALLS).nearest_wall_distance := by
    rw [hn]
    exact hm.hypot_nonneg _ _
  exact absurd (h0.trans inv.le_length) (not_le.mpr h)

theorem intersects_line_x_nonneg (r : Ray K) (line : BoundaryWall K) (h : r.hits line)
    (hs : 0 ≤ line.start.x) (he : 0 ≤ line.end_.x) : 0 ≤ (r.intersects_line line).x := by
  rw [intersects_line_of_hits r line h, point_at_ua_eq_point_at_ub r line h.1]
  obtain ⟨_, _, hb0, hb1⟩ := h
  have e : (line.point_at (r.ub line)).x
      = (1 - r.ub line) * line.start.x + r.ub line * line.end_.x := by
    unfold BoundaryWall.point_at
    ring
  rw [e]
  exact add_nonneg (mul_nonneg (sub_nonneg.mpr hb1) hs) (mul_nonneg hb0 he)

/-- C3, as amended: for a probe of length `L >= 0`, when no intersection point
found by the parametric test has `x = -1` (the value `Ray::set_end_point` reads
as "no intersection"), `Ray::set_end_point` keeps the nearest intersection:
if some obstacle yields an intersection, `end_point` is the intersection point
of some obstacle and no obstacle's intersection point is strictly closer to the
source. -/
theorem set_end_point_keeps_nearest (m : CMath K) (hm : m.Lawful)
    (WALLS : List (BoundaryWall K)) (source : Point K) (theta L : K) (hL : 0 ≤ L)
    (hx : ∀ line ∈ WALLS, (Ray.new m source theta L).hits line →
      ((Ray.new m source theta L).intersects_line line).x ≠ -1) :
    keeps_nearest m WALLS (Ray.new m source theta L) := by
  rintro ⟨w0, hw0, hh0⟩
  have inv := scan_walls_inv m (Ray.new m source theta L) WALLS
  have hdist : ∀ line, (Ray.new m source theta L).hits line →
      dist m source ((Ray.new m source theta L).intersects_line line)
        = (Ray.new m source theta L).ua line * L := by
    intro line hh
    rw [intersects_line_of_hits _ line hh]
    exact dist_point_at hm source theta L _ hL hh.2.1.1
  have hsrc : (Ray.new m source theta L).source = source := rfl
  have hlen : (Ray.new m source theta L).length = L := rfl
  rw [hsrc]
  by_cases hf : ((Ray.new m source theta L).scan_walls m WALLS).found_intersection = true
  · rw [set_end_point_of_found m _ WALLS hf]
    obtain ⟨v, hv, hh, hep, hn⟩ := inv.found hf
    refine ⟨⟨v, hv, hh, hep⟩, fun line hl hh' => not_lt.mpr ?_⟩
    rw [hsrc] at hn
    rw [← hn]
    exact inv.nearest line hl (hx line hl hh')
  · rw [Bool.not_eq_true] at hf
    rw [set_end_point_of_not_found m _ WALLS hf]
    have hn := inv.not_found hf
    rw [hlen] at hn
    have hge : ∀ line ∈ WALLS, (Ray.new m source theta L).hits line →
        L ≤ (Ray.new m source theta L).ua line * L := by
      intro line hl hh'
      have h1 := inv.nearest line hl (hx line hl hh')
      rw [hn] at h1
      exact h1.trans_eq (hdist line hh')
    have hLpos : 0 < L := by
      rcases hL.lt_or_eq with h | h
      · exact h
      · exfalso
        apply hh0.1
        rw [← h]
        exact denominator_of_zero_length m source theta w0
    have hua : (Ray.new m source theta L).ua w0 = 1 := by
      apply le_antisymm hh0.2.1.2
      have := hge w0 hw0 hh0
      by_contra hlt
      rw [not_le] at hlt
      nlinarith
    have hd1 : dist m source ((Ray.new m source theta L).point_at 1) = L := by
      rw [dist_point_at hm source theta L 1 hL zero_le_one, one_mul]
    refine ⟨⟨w0, hw0, hh0, ?_⟩, fun line hl hh' => not_lt.mpr ?_⟩
    · rw [intersects_line_of_hits _ w0 hh0, hua]
    · rw [hd1, hdist line hh']
      exact hge line hl hh'

end Nearest

/-! ### Concrete probes over the real numbers -/

theorem new_zero_angle (source : Point ℝ) (L : ℝ) :
    Ray.new realMath source 0 L = ⟨source, L, ⟨0, 0⟩, ⟨L, 0⟩⟩ := by
  simp [Ray.new, realMath]

/-- C3, counterexample. First probe: from `(-2,0)` at angle `0` with length `2`
against the wall from `(-1,-1)` to `(-1,1)`; the intersection `(-1,0)` has
`x = -1`, is read as "no intersection", and `end_point` is `(0,0)`. Second
probe: from `(0,0)` at angle `0` with the negative length `-2` against the wall
from `(-1/2,-1)` to `(-1/2,1)`; no distance is below the negative length and
`end_point` is `(-2,0)`, not the intersection `(-1/2,0)`. -/
theorem set_end_point_misses_nearest :
    ¬keeps_nearest realMath [⟨⟨-1, -1⟩, ⟨-1, 1⟩⟩] (Ray.new realMath ⟨-2, 0⟩ 0 2) ∧
      ¬keeps_nearest realMath [⟨⟨-1 / 2, -1⟩, ⟨-1 / 2, 1⟩⟩] (Ray.new realMath ⟨0, 0⟩ 0 (-2)) := by
  constructor
  · intro h
    rw [new_zero_angle] at h
    have hh : (⟨⟨-2, 0⟩, 2, ⟨0, 0⟩, ⟨2, 0⟩⟩ : Ray ℝ).hits ⟨⟨-1, -1⟩, ⟨-1, 1⟩⟩ := by
      norm_num [Ray.hits, Ray.denominator, Ray.ua, Ray.ub]
    obtain ⟨⟨line, hl, _, he⟩, _⟩ := h ⟨_, List.mem_singleton_self _, hh⟩
    rw [List.mem_singleton.mp hl] at he
    norm_num [Ray.set_end_point, Ray.scan_walls, Ray.scan_wall, Ray.intersects_line,
      Ray.denominator, Ray.ua, Ray.ub] at he
  · intro h
    rw [new_zero_angle] at h
    have hh : (⟨⟨0, 0⟩, -2, ⟨0, 0⟩, ⟨-2, 0⟩⟩ : Ray ℝ).hits ⟨⟨-1 / 2, -1⟩, ⟨-1 / 2, 1⟩⟩ := by
      norm_num [Ray.hits, Ray.denominator, Ray.ua, Ray.ub]
    obtain ⟨⟨line, hl, _, he⟩, _⟩ := h ⟨_, List.mem_singleton_self _, hh⟩
    rw [List.mem_singleton.mp hl,
      set_end_point_of_neg_length realMath_lawful _ _ (by norm_num)] at he
    norm_num [Ray.point_at, Ray.intersects_line, Ray.denominator, Ray.ua, Ray.ub] at he

/-- C3 at a concrete input: the probe from `(250,150)` at angle `0` with length
`200` against the wall from `(300,100)` to `(500,300)`, which it hits. -/
theorem set_end_point_keeps_nearest_witness :
    (Ray.new realMath ⟨250, 150⟩ 0 200).hits ⟨⟨300, 100⟩, ⟨500, 300⟩⟩ ∧
      keeps_nearest realMath [⟨⟨300, 100⟩, ⟨500, 300⟩⟩] (Ray.new realMath ⟨250, 150⟩ 0 200) :=
  ⟨by
    rw [new_zero_angle]
    norm_num [Ray.hits, Ray.denominator, Ray.ua, Ray.ub],
   set_end_point_keeps_nearest realMath realMath_lawful _ ⟨250, 150⟩ 0 200 (by norm_num) (by
    intro line hl hh
    rw [List.mem_singleton.mp hl] at hh ⊢
    have := intersects_line_x_nonneg _ _ hh (by norm_num) (by norm_num)
    linarith)⟩

/-! ## The scenario of the specification

The registry holds the wall from `(300,100)` to `(500,300)` only, the light is
at `(250,150)` and casts four rays. -/

section FirstMatch

variable {K : Type} [LinearOrderedField K]

/-! ## First match and sliding -/

theorem scan_lines_cons_of_crossing (m : CMath K) (pos new_pos : Point K)
    (direction : Directions) (line : BoundaryWall K) (post : List (BoundaryWall K))
    (h : ({ start := pos, end_ := new_pos } : Wall K).intersects_line line = true) :
    LightSource.scan_lines m pos new_pos direction (line :: post)
      = LightSource.scan_lines m pos new_pos direction [line] := by
  rw [LightSource.scan_lines, LightSource.scan_lines]
  simp only [h, if_true]

/-- C11: first-match policy. When `line` is the first obstacle of the registry
that crosses the probe, the result of `LightSource::intersects_any_line` over
the whole registry equals its result over the registry holding `line` alone:
the obstacles after `line` do not affect it. -/
theorem intersects_any_line_first_match (m : CMath K) (pre post : List (BoundaryWall K))
    (line : BoundaryWall K) (ls : LightSource K) (new_pos : Point K) (direction : Directions)
    (hpre : ∀ v ∈ pre,
      ({ start := ls.pos, end_ := new_pos } : Wall K).intersects_line v = false)
    (hline : ({ start := ls.pos, end_ := new_pos } : Wall K).intersects_line line = true) :
    ls.intersects_any_line m (pre ++ line :: post) new_pos direction
      = ls.intersects_any_line m [line] new_pos direction := by
  unfold LightSource.intersects_any_line
  rw [scan_lines_append m ls.pos new_pos direction pre (line :: post) hpre]
  exact scan_lines_cons_of_crossing m ls.pos new_pos direction line post hline

theorem scan_lines_slide (m : CMath K) (pos new_pos : Point K) (direction : Directions)
    (line : BoundaryWall K) (post : List (BoundaryWall K)) (a : K)
    (hline : ({ start := pos, end_ := new_pos } : Wall K).intersects_line line = true)
    (hangle : line.get_angle m direction = .ok a)
    (h1 : a ≠ PI m) (h2 : a ≠ -PI m) (h3 : a ≠ PI m / 4) (h4 : a ≠ -PI m / 4) :
    LightSource.scan_lines m pos new_pos direction (line :: post)
      = .ok ⟨pos.x + m.cos a * dist m new_pos pos, pos.y + m.sin a * dist m new_pos pos⟩ := by
  have e1 : HALF_PI m / 2 = PI m / 4 := by
    unfold HALF_PI
    ring
  have e2 : -HALF_PI m / 2 = -PI m / 4 := by
    unfold HALF_PI
    ring
  rw [LightSource.scan_lines]
  simp only [hline, hangle, e1, e2, h1, h2, h3, h4, or_self, if_true, if_false, dist]

/-- C12: sliding. If the angle `a = get_angle(direction)` of the first obstacle
crossing the probe is none of `pi`, `-pi`, `pi/4`, `-pi/4`,
`LightSource::intersects_any_line` returns `P + len * (cos a, sin a)` with
`len = distance(P, P')`; the returned position is at distance exactly `len`
from `P`. -/
theorem intersects_any_line_slides (m : CMath K) (hm : m.Lawful)
    (pre post : List (BoundaryWall K)) (line : BoundaryWall K) (ls : LightSource K)
    (new_pos : Point K) (direction : Directions) (a : K)
    (hpre : ∀ v ∈ pre,
      ({ start := ls.pos, end_ := new_pos } : Wall K).intersects_line v = false)
    (hline : ({ start := ls.pos, end_ := new_pos } : Wall K).intersects_line line = true)
    (hangle : line.get_angle m direction = .ok a)
    (h1 : a ≠ PI m) (h2 : a ≠ -PI m) (h3 : a ≠ PI m / 4) (h4 : a ≠ -PI m / 4) :
    ls.intersects_any_line m (pre ++ line :: post) new_pos direction
        = .ok ⟨ls.pos.x + dist m new_pos ls.pos * m.cos a,
            ls.pos.y + dist m new_pos ls.pos * m.sin a⟩ ∧
      dist m ⟨ls.pos.x + dist m new_pos ls.pos * m.cos a,
          ls.pos.y + dist m new_pos ls.pos * m.sin a⟩ ls.pos = dist m new_pos ls.pos := by
  constructor
  · unfold LightSource.intersects_any_line
    rw [scan_lines_append m ls.pos new_pos direction pre (line :: post) hpre,
      scan_lines_slide m ls.pos new_pos direction line post a hline hangle h1 h2 h3 h4,
      mul_comm (m.cos a), mul_comm (m.sin a)]
  · have hlen : 0 ≤ dist m new_pos ls.pos := hm.hypot_nonneg _ _
    generalize dist m new_pos ls.pos = len at hlen
    unfold dist
    apply hypot_eq_of_sq hm hlen
    simp only
    linear_combination (len ^ 2) * (hm.cos_sq_add_sin_sq a).symm

end FirstMatch

/-! ### Vertical walls over the real numbers -/

theorem half_pi_not_sentinel :
    (PI realMath / 2 ≠ PI realMath ∧ PI realMath / 2 ≠ -PI realMath
        ∧ PI realMath / 2 ≠ PI realMath / 4 ∧ PI realMath / 2 ≠ -PI realMath / 4) ∧
      (-(PI realMath / 2) ≠ PI realMath ∧ -(PI realMath / 2) ≠ -PI realMath
        ∧ -(PI realMath / 2) ≠ PI realMath / 4 ∧ -(PI realMath / 2) ≠ -PI realMath / 4) := by
  have h : 0 < PI realMath := Real.pi_pos
  refine ⟨⟨?_, ?_, ?_, ?_⟩, ⟨?_, ?_, ?_, ?_⟩⟩ <;> intro e <;> linarith

theorem get_angle_right_vertical :
    (⟨⟨600, 300⟩, ⟨600, 500⟩⟩ : BoundaryWall ℝ).get_angle realMath Directions.RIGHT
      = .ok (PI realMath / 2) := by
  simp only [BoundaryWall.get_angle, realMath, PI, reduceCtorEq, if_false, if_true]
  rw [Complex.arg_eq_pi_div_two_iff.mpr ⟨by norm_num, by norm_num⟩]

/-- C11 at a concrete input: the light at `(590,400)` moving to `(610,400)`; the
first two walls of `main` do not cross the probe, the wall from `(600,300)` to
`(600,500)` does, and so does the later wall from `(595,300)` to `(595,500)`,
which is nearer to the light. -/
theorem intersects_any_line_first_match_witness :
    (⟨4, ⟨590, 400⟩, 5, 0, 0⟩ : LightSource ℝ).intersects_any_line realMath
        ([⟨⟨300, 100⟩, ⟨500, 300⟩⟩, ⟨⟨200, 600⟩, ⟨500, 800⟩⟩] ++
          ⟨⟨600, 300⟩, ⟨600, 500⟩⟩ :: [⟨⟨595, 300⟩, ⟨595, 500⟩⟩])
        ⟨610, 400⟩ Directions.RIGHT
      = (⟨4, ⟨590, 400⟩, 5, 0, 0⟩ : LightSource ℝ).intersects_any_line realMath
        [⟨⟨600, 300⟩, ⟨600, 500⟩⟩] ⟨610, 400⟩ Directions.RIGHT :=
  intersects_any_line_first_match realMath _ _ _ _ _ _
    (by
      intro v hv
      simp only [List.mem_cons, List.mem_singleton, List.not_mem_nil, or_false] at hv
      rcases hv with rfl | rfl <;> norm_num [Wall.intersects_line, Wall.ccw])
    (by norm_num [Wall.intersects_line, Wall.ccw])

/-- C12 at a concrete input: the light at `(599,400)` moving to `(601,400)`,
direction `RIGHT`, blocked by the wall from `(600,300)` to `(600,500)`, whose
angle is `pi/2`. -/
theorem intersects_any_line_slides_witness :
    (⟨4, ⟨599, 400⟩, 5, 0, 0⟩ : LightSource ℝ).intersects_any_line realMath
        ([⟨⟨300, 100⟩, ⟨500, 300⟩⟩, ⟨⟨200, 600⟩, ⟨500, 800⟩⟩] ++
          ⟨⟨600, 300⟩, ⟨600, 500⟩⟩ :: [⟨⟨800, 600⟩, ⟨1000, 600⟩⟩, ⟨⟨1200, 100⟩, ⟨1200, 700⟩⟩])
        ⟨601, 400⟩ Directions.RIGHT
        = .ok ⟨599 + dist realMath ⟨601, 400⟩ ⟨599, 400⟩ * realMath.cos (PI realMath / 2),
            400 + dist realMath ⟨601, 400⟩ ⟨599, 400⟩ * realMath.sin (PI realMath / 2)⟩ ∧
      dist realMath
          ⟨599 + dist realMath ⟨601, 400⟩ ⟨599, 400⟩ * realMath.cos (PI realMath / 2),
            400 + dist realMath ⟨601, 400⟩ ⟨599, 400⟩ * realMath.sin (PI realMath / 2)⟩
          ⟨599, 400⟩ = dist realMath ⟨601, 400⟩ ⟨599, 400⟩ :=
  intersects_any_line_slides realMath realMath_lawful _ _ _ ⟨4, ⟨599, 400⟩, 5, 0, 0⟩ _ _
    (PI realMath / 2)
    (by
      intro v hv
      simp only [List.mem_cons, List.mem_singleton, List.not_mem_nil, or_false] at hv
      rcases hv with rfl | rfl <;> norm_num [Wall.intersects_line, Wall.ccw])
    (by norm_num [Wall.intersects_line, Wall.ccw])
    get_angle_right_vertical
    half_pi_not_sentinel.1.1 half_pi_not_sentinel.1.2.1 half_pi_not_sentinel.1.2.2.1
    half_pi_not_sentinel.1.2.2.2

section Segments

variable {K : Type} [LinearOrderedField K]

/-! ## Angles, construction and rotation of segments -/

/-- C14: `BoundaryWall::get_angle` fails exactly when the direction is neither
`LEFT` nor `RIGHT`, that is exactly for `UP` and `DOWN`; for `LEFT` and `RIGHT`
it returns a value. -/
theorem get_angle_error_iff (m : CMath K) (w : BoundaryWall K) (direction : Directions) :
    ((∃ e, w.get_angle m direction = .error e) ↔
        (direction ≠ Directions.LEFT ∧ direction ≠ Directions.RIGHT)) ∧
      ((direction ≠ Directions.LEFT ∧ direction ≠ Directions.RIGHT) ↔
        (direction = Directions.UP ∨ direction = Directions.DOWN)) ∧
      ((direction = Directions.LEFT ∨ direction = Directions.RIGHT) →
        ∃ a, w.get_angle m direction = .ok a) := by
  cases direction <;> simp [BoundaryWall.get_angle]

end Segments

/-- C15, counterexample: both constructors accept equal points; the segment
built from `(0,0)` and `(0,0)` has its start equal to its end. -/
theorem new_degenerate :
    (BoundaryWall.new (⟨0, 0⟩ : Point ℚ) ⟨0, 0⟩).start
        = (BoundaryWall.new (⟨0, 0⟩ : Point ℚ) ⟨0, 0⟩).end_ ∧
      (Wall.new (⟨0, 0⟩ : Point ℚ) ⟨0, 0⟩).start = (Wall.new (⟨0, 0⟩ : Point ℚ) ⟨0, 0⟩).end_ :=
  ⟨rfl, rfl⟩

/-- C15, as amended: constructing a segment never fails; both constructors store
the two points as given, so a constructed segment has `start != end` exactly
when the points passed to the constructor differ. -/
theorem new_stores_points {K : Type} (start_point end_point : Point K) :
    ((BoundaryWall.new start_point end_point).start = start_point ∧
        (BoundaryWall.new start_point end_point).end_ = end_point) ∧
      ((Wall.new start_point end_point).start = start_point ∧
        (Wall.new start_point end_point).end_ = end_point) ∧
      ((BoundaryWall.new start_point end_point).start
          ≠ (BoundaryWall.new start_point end_point).end_ ↔ start_point ≠ end_point) ∧
      ((Wall.new start_point end_point).start
          ≠ (Wall.new start_point end_point).end_ ↔ start_point ≠ end_point) :=
  ⟨⟨rfl, rfl⟩, ⟨rfl, rfl⟩, Iff.rfl, Iff.rfl⟩

section Agreement

variable {K : Type} [LinearOrderedField K]

/-! ## Agreement of the two intersection tests, and the resolved ray -/

/-- C19: every resolved ray stays on its probe. For a probe of length `L >= 0`
the `end_point` set by `Ray::set_end_point` is `source + t * direction` for some
`t` in `[0, 1]`, and its distance from the source does not exceed `L`. -/
theorem set_end_point_on_probe (m : CMath K) (hm : m.Lawful) (WALLS : List (BoundaryWall K))
    (source : Point K) (theta L : K) (hL : 0 ≤ L) :
    (∃ t, 0 ≤ t ∧ t ≤ 1 ∧
        ((Ray.new m source theta L).set_end_point m WALLS).end_point
          = (Ray.new m source theta L).point_at t) ∧
      dist m source ((Ray.new m source theta L).set_end_point m WALLS).end_point ≤ L := by
  have key : ∃ t, 0 ≤ t ∧ t ≤ 1 ∧
      ((Ray.new m source theta L).set_end_point m WALLS).end_point
        = (Ray.new m source theta L).point_at t := by
    by_cases hf : ((Ray.new m source theta L).scan_walls m WALLS).found_intersection = true
    · obtain ⟨line, _, hh, hep, _⟩ := (scan_walls_inv m (Ray.new m source theta L) WALLS).found hf
      refine ⟨(Ray.new m source theta L).ua line, hh.2.1.1, hh.2.1.2, ?_⟩
      rw [set_end_point_of_found m _ WALLS hf, hep, intersects_line_of_hits _ line hh]
    · rw [Bool.not_eq_true] at hf
      exact ⟨1, zero_le_one, le_refl 1, set_end_point_of_not_found m _ WALLS hf⟩
  refine ⟨key, ?_⟩
  obtain ⟨t, ht0, ht1, e⟩ := key
  rw [e, dist_point_at hm source theta L t hL ht0]
  exact mul_le_of_le_one_left hL ht1

end Agreement

/-- C19 at a concrete input: the probe from `(250,150)` at angle `0` with length
`200` against the five interior walls of `main`. -/
theorem set_end_point_on_probe_witness :
    (∃ t, 0 ≤ t ∧ t ≤ 1 ∧
        ((Ray.new realMath ⟨250, 150⟩ 0 200).set_end_point realMath
            [⟨⟨300, 100⟩, ⟨500, 300⟩⟩, ⟨⟨200, 600⟩, ⟨500, 800⟩⟩, ⟨⟨600, 300⟩, ⟨600, 500⟩⟩,
              ⟨⟨800, 600⟩, ⟨1000, 600⟩⟩, ⟨⟨1200, 100⟩, ⟨1200, 700⟩⟩]).end_point
          = (Ray.new realMath ⟨250, 150⟩ 0 200).point_at t) ∧
      dist realMath ⟨250, 150⟩
        ((Ray.new realMath ⟨250, 150⟩ 0 200).set_end_point realMath
          [⟨⟨300, 100⟩, ⟨500, 300⟩⟩, ⟨⟨200, 600⟩, ⟨500, 800⟩⟩, ⟨⟨600, 300⟩, ⟨600, 500⟩⟩,
            ⟨⟨800, 600⟩, ⟨1000, 600⟩⟩, ⟨⟨1200, 100⟩, ⟨1200, 700⟩⟩]).end_point ≤ 200 :=
  set_end_point_on_probe realMath realMath_lawful _ ⟨250, 150⟩ 0 200 (by norm_num)

end Rays
